import Mathlib

/-!
Verification of the training / prediction-cache core of the
`nlp-residue-OOD` repository, shallowly embedded in Lean 4.

The embedding covers:
* `Trainer.train` (src/trainer.py): the per-epoch early-stopping loop,
  with the per-epoch dev/test evaluation results abstracted as an input
  sequence `evals : ℕ → EpochEval` (they are produced by the black-box
  model, which is an external collaborator in the design).
* `Trainer.model_output` (src/trainer.py): hit / prediction counting.
* `SystemLoader.load_probs` (src/system_loader.py): the prediction cache.
* `SystemLoader._probs` / `Trainer._probs`: the per-example softmax branch.
* `SystemLoader.load_labels`: the split-mode label loader.
* `EnsembleLoader.load_probs`: ensemble averaging and the seed-consistency
  assertion.
-/

namespace NlpResidue

/-- Aggregate loss/accuracy returned by `DirHelper.print_perf` for one pass. -/
structure Perf where
  loss : ℚ
  acc  : ℚ
deriving DecidableEq

/-- The dev-pass and test-pass results of one epoch (`system_eval` on the dev
split and on the test split). -/
structure EpochEval where
  dev  : Perf
  test : Perf
deriving DecidableEq

/-- Observable state threaded through `Trainer.train`:
`bestEpoch` mirrors the `best_epoch` tuple `(epoch, dev loss, dev acc)`;
`savedEpochs` records the epochs at which `save_model()` (checkpoint slot
"base") was called; `generatedEpochs` records the epochs at which
`generate_probs` materialized the test-split predictions; `lastTestPerf`
is the value of the `test_perf` variable (returned at the end);
`epochsRun` records which epoch indices the loop body executed. -/
structure TrainState where
  bestEpoch       : ℤ × ℚ × ℚ
  savedEpochs     : List ℕ
  generatedEpochs : List ℕ
  lastTestPerf    : Option Perf
  epochsRun       : List ℕ
deriving DecidableEq

/-- Initial state: `best_epoch = (-1, 10000, 0)` (trainer.py line 47). -/
def initState : TrainState :=
  { bestEpoch := (-1, 10000, 0), savedEpochs := [], generatedEpochs := [],
    lastTestPerf := none, epochsRun := [] }

/-- One epoch body of `Trainer.train` after the training pass: record the
test perf, and if `perf.acc > best_epoch[2]` update `best_epoch` and either
save the model (when `args.save`) or generate test-split probabilities. -/
def stepState (save : Bool) (epoch : ℕ) (ev : EpochEval) (st : TrainState) :
    TrainState :=
  let st1 : TrainState :=
    { st with lastTestPerf := some ev.test, epochsRun := st.epochsRun ++ [epoch] }
  if st1.bestEpoch.2.2 < ev.dev.acc then
    { st1 with
        bestEpoch := ((epoch : ℤ), ev.dev.loss, ev.dev.acc),
        savedEpochs := if save then st1.savedEpochs ++ [epoch] else st1.savedEpochs,
        generatedEpochs :=
          if save then st1.generatedEpochs else st1.generatedEpochs ++ [epoch] }
  else st1

/-- The early-stop test `epoch - best_epoch[0] >= 3` (trainer.py line 89),
checked after the epoch body has possibly updated `best_epoch`. -/
def breakCond (epoch : ℕ) (st : TrainState) : Bool :=
  decide (3 ≤ (epoch : ℤ) - st.bestEpoch.1)

/-- The `for epoch in range(args.epochs)` loop of `Trainer.train`, running
epochs `epoch, epoch+1, …` while `n` epochs remain, breaking when
`breakCond` holds. -/
def trainFrom (save : Bool) (evals : ℕ → EpochEval) :
    ℕ → ℕ → TrainState → TrainState
  | 0, _, st => st
  | n + 1, epoch, st =>
    let st1 := stepState save epoch (evals epoch) st
    if breakCond epoch st1 then st1 else trainFrom save evals n (epoch + 1) st1

/-- `Trainer.train` with `args.epochs = epochs`, abstracting each epoch's
dev/test evaluation results as `evals`. -/
def train (save : Bool) (evals : ℕ → EpochEval) (epochs : ℕ) : TrainState :=
  trainFrom save evals epochs 0 initState

/-- The state after the first `k` epoch bodies have run with no early-stop
check (reference fold used to characterise where the loop stops). -/
def statesAfter (save : Bool) (evals : ℕ → EpochEval) (k : ℕ) : TrainState :=
  (List.range k).foldl (fun st e => stepState save e (evals e) st) initState

/-- Number of epochs the loop actually executes when started at `epoch` with
`n` epochs remaining: it advances until `breakCond` fires or the budget is
exhausted, whichever happens first. -/
def stopFrom (save : Bool) (evals : ℕ → EpochEval) : ℕ → ℕ → ℕ
  | 0, e => e
  | n + 1, e =>
    if breakCond e (statesAfter save evals (e + 1)) then e + 1
    else stopFrom save evals n (e + 1)

/-- Index one past the last epoch executed by `train`. -/
def stopEpoch (save : Bool) (evals : ℕ → EpochEval) (epochs : ℕ) : ℕ :=
  stopFrom save evals epochs 0

theorem statesAfter_succ (save : Bool) (evals : ℕ → EpochEval) (k : ℕ) :
    statesAfter save evals (k + 1)
      = stepState save k (evals k) (statesAfter save evals k) := by
  simp [statesAfter, List.range_succ]

theorem trainFrom_statesAfter (save : Bool) (evals : ℕ → EpochEval) :
    ∀ n e, trainFrom save evals n e (statesAfter save evals e)
      = statesAfter save evals (stopFrom save evals n e) := by
  intro n
  induction n with
  | zero => intro e; simp [trainFrom, stopFrom]
  | succ n ih =>
    intro e
    rw [trainFrom, stopFrom, ← statesAfter_succ]
    by_cases h : breakCond e (statesAfter save evals (e + 1)) = true
    · simp [h]
    · simp only [Bool.not_eq_true] at h
      simp [h, ih (e + 1)]

theorem train_eq_statesAfter (save : Bool) (evals : ℕ → EpochEval) (epochs : ℕ) :
    train save evals epochs
      = statesAfter save evals (stopEpoch save evals epochs) := by
  have h0 : statesAfter save evals 0 = initState := rfl
  rw [train, stopEpoch, ← h0, trainFrom_statesAfter]

theorem stopFrom_le (save : Bool) (evals : ℕ → EpochEval) :
    ∀ n e, stopFrom save evals n e ≤ e + n := by
  intro n
  induction n with
  | zero => intro e; simp [stopFrom]
  | succ n ih =>
    intro e
    rw [stopFrom]
    by_cases h : breakCond e (statesAfter save evals (e + 1)) = true
    · simp [h]
    · simp only [Bool.not_eq_true] at h
      simp only [h, Bool.false_eq_true, if_false]
      have := ih (e + 1)
      omega

theorem stopFrom_ge (save : Bool) (evals : ℕ → EpochEval) :
    ∀ n e, e ≤ stopFrom save evals n e := by
  intro n
  induction n with
  | zero => intro e; simp [stopFrom]
  | succ n ih =>
    intro e
    rw [stopFrom]
    by_cases h : breakCond e (statesAfter save evals (e + 1)) = true
    · simp [h]
    · simp only [Bool.not_eq_true] at h
      simp only [h, Bool.false_eq_true, if_false]
      have := ih (e + 1)
      omega

theorem stopFrom_break (save : Bool) (evals : ℕ → EpochEval) :
    ∀ n e, stopFrom save evals n e < e + n →
      breakCond (stopFrom save evals n e - 1)
        (statesAfter save evals (stopFrom save evals n e)) = true := by
  intro n
  induction n with
  | zero => intro e h; simp [stopFrom] at h
  | succ n ih =>
    intro e h
    rw [stopFrom] at h ⊢
    by_cases hb : breakCond e (statesAfter save evals (e + 1)) = true
    · simp [hb]
    · simp only [Bool.not_eq_true] at hb
      simp only [hb, Bool.false_eq_true, if_false] at h ⊢
      exact ih (e + 1) (by omega)

theorem stopFrom_no_break (save : Bool) (evals : ℕ → EpochEval) :
    ∀ n e f, e ≤ f → f + 1 < stopFrom save evals n e →
      breakCond f (statesAfter save evals (f + 1)) = false := by
  intro n
  induction n with
  | zero => intro e f hef h; simp [stopFrom] at h; omega
  | succ n ih =>
    intro e f hef h
    rw [stopFrom] at h
    by_cases hb : breakCond e (statesAfter save evals (e + 1)) = true
    · simp only [hb, if_true] at h
      omega
    · simp only [Bool.not_eq_true] at hb
      simp only [hb, Bool.false_eq_true, if_false] at h
      rcases Nat.eq_or_lt_of_le hef with heq | hlt
      · subst heq; exact hb
      · exact ih (e + 1) f hlt h

theorem epochsRun_statesAfter (save : Bool) (evals : ℕ → EpochEval) :
    ∀ k, (statesAfter save evals k).epochsRun = List.range k := by
  intro k
  induction k with
  | zero => rfl
  | succ k ih =>
    rw [statesAfter_succ, List.range_succ]
    unfold stepState
    by_cases h : (statesAfter save evals k).bestEpoch.2.2 < (evals k).dev.acc
    · simp [h, ih]
    · simp [h, ih]

theorem lastTestPerf_statesAfter (save : Bool) (evals : ℕ → EpochEval) :
    ∀ k, 0 < k →
      (statesAfter save evals k).lastTestPerf = some (evals (k - 1)).test := by
  intro k hk
  match k, hk with
  | k + 1, _ =>
    rw [statesAfter_succ]
    unfold stepState
    by_cases h : (statesAfter save evals k).bestEpoch.2.2 < (evals k).dev.acc
    · simp [h]
    · simp [h]

/-- Concrete per-epoch evaluation results realising the spec's example:
dev accuracies `[0.5, 0.6, 0.55, 0.55, 0.55]` for epochs 0–4, dev losses
`(10 - e)/10`, and pairwise-distinct test accuracies `(e+1)/10`. -/
def evals5 : ℕ → EpochEval := fun e =>
  { dev := { loss := mkRat (10 - (e : ℤ)) 10,
             acc := [mkRat 1 2, mkRat 3 5, mkRat 11 20, mkRat 11 20,
                     mkRat 11 20].getD e 0 },
    test := { loss := 1, acc := mkRat ((e : ℤ) + 1) 10 } }

/-- Claim C1: the training loop stops once `epoch - best_epoch.epoch >= 3` or once
`args.epochs` is reached, whichever comes first: the loop result is the pure
fold of epoch bodies up to `stopEpoch`, `stopEpoch` never exceeds the
configured epoch budget, when the loop stops early the break test holds at
its last epoch, and the break test fails at every non-final epoch; in
particular for dev accuracies `[0.5, 0.6, 0.55, 0.55, 0.55]` and budget 10
it runs exactly epochs 0–4 and ends with `best_epoch = (1, 0.9, 0.6)`,
epoch 1's dev loss and accuracy. -/
theorem train_stop_rule (save : Bool) (evals : ℕ → EpochEval) (epochs : ℕ) :
    (train save evals epochs = statesAfter save evals (stopEpoch save evals epochs)
     ∧ stopEpoch save evals epochs ≤ epochs
     ∧ (stopEpoch save evals epochs < epochs →
         breakCond (stopEpoch save evals epochs - 1)
           (statesAfter save evals (stopEpoch save evals epochs)) = true)
     ∧ ∀ f, f + 1 < stopEpoch save evals epochs →
         breakCond f (statesAfter save evals (f + 1)) = false)
    ∧ (train false evals5 10).epochsRun = [0, 1, 2, 3, 4]
    ∧ (train false evals5 10).bestEpoch = (1, mkRat 9 10, mkRat 3 5) := by
  refine ⟨⟨train_eq_statesAfter save evals epochs, ?_, ?_, ?_⟩, by decide, by decide⟩
  · simpa using stopFrom_le save evals epochs 0
  · intro h
    exact stopFrom_break save evals epochs 0 (by simpa using h)
  · intro f hf
    exact stopFrom_no_break save evals epochs 0 f (Nat.zero_le f) hf

theorem train_stop_rule_witness :
    (2 + 1 < stopEpoch false evals5 10
      ∧ breakCond 2 (statesAfter false evals5 (2 + 1)) = false)
    ∧ (stopEpoch false evals5 10 < 10
      ∧ breakCond (stopEpoch false evals5 10 - 1)
          (statesAfter false evals5 (stopEpoch false evals5 10)) = true) :=
  ⟨⟨by decide, (train_stop_rule false evals5 10).1.2.2.2 2 (by decide)⟩,
   ⟨by decide, (train_stop_rule false evals5 10).1.2.2.1 (by decide)⟩⟩

/-- Claim C2: in every epoch, iff dev accuracy strictly exceeds the recorded best,
the best record becomes `(epoch, dev loss, dev acc)` and exactly one action
runs — the checkpoint save when `args.save` is set, otherwise the test-split
prediction generation — never both; on non-improvement neither runs and the
best record is unchanged. -/
theorem improvement_rule (save : Bool) (epoch : ℕ) (ev : EpochEval) (st : TrainState) :
    (st.bestEpoch.2.2 < ev.dev.acc →
      (stepState save epoch ev st).bestEpoch = ((epoch : ℤ), ev.dev.loss, ev.dev.acc)
      ∧ ((save = true
            ∧ (stepState save epoch ev st).savedEpochs = st.savedEpochs ++ [epoch]
            ∧ (stepState save epoch ev st).generatedEpochs = st.generatedEpochs)
         ∨ (save = false
            ∧ (stepState save epoch ev st).savedEpochs = st.savedEpochs
            ∧ (stepState save epoch ev st).generatedEpochs
                = st.generatedEpochs ++ [epoch])))
    ∧ (¬ st.bestEpoch.2.2 < ev.dev.acc →
      (stepState save epoch ev st).bestEpoch = st.bestEpoch
      ∧ (stepState save epoch ev st).savedEpochs = st.savedEpochs
      ∧ (stepState save epoch ev st).generatedEpochs = st.generatedEpochs) := by
  unfold stepState
  by_cases h : st.bestEpoch.2.2 < ev.dev.acc
  · cases save <;> simp [h]
  · simp [h]

/-- A single improving epoch evaluation used to witness the improvement rule. -/
def ev0 : EpochEval :=
  { dev := { loss := 1, acc := mkRat 1 2 },
    test := { loss := 1, acc := mkRat 1 4 } }

theorem improvement_rule_witness :
    initState.bestEpoch.2.2 < ev0.dev.acc
    ∧ ((stepState true 0 ev0 initState).bestEpoch
          = ((0 : ℤ), ev0.dev.loss, ev0.dev.acc)
       ∧ ((true = true
             ∧ (stepState true 0 ev0 initState).savedEpochs
                 = initState.savedEpochs ++ [0]
             ∧ (stepState true 0 ev0 initState).generatedEpochs
                 = initState.generatedEpochs)
          ∨ (true = false
             ∧ (stepState true 0 ev0 initState).savedEpochs = initState.savedEpochs
             ∧ (stepState true 0 ev0 initState).generatedEpochs
                 = initState.generatedEpochs ++ [0]))) :=
  ⟨by decide, (improvement_rule true 0 ev0 initState).1 (by decide)⟩

/-- Claim C3: the value returned by `Trainer.train` is the `test_perf` of the final
evaluated epoch (the last epoch the loop body ran), and in the concrete
example it is epoch 4's test performance, which differs from the
best-dev-accuracy epoch's (epoch 1's) test performance. -/
theorem train_returns_last_test (save : Bool) (evals : ℕ → EpochEval) (epochs : ℕ) :
    (∀ e, (train save evals epochs).epochsRun.getLast? = some e →
       (train save evals epochs).lastTestPerf = some (evals e).test)
    ∧ (train false evals5 10).lastTestPerf = some (evals5 4).test
    ∧ (evals5 4).test ≠ (evals5 1).test := by
  refine ⟨?_, by decide, by decide⟩
  intro e he
  rw [train_eq_statesAfter] at he ⊢
  rw [epochsRun_statesAfter] at he
  rcases k : stopEpoch save evals epochs with _ | m
  · rw [k] at he; simp [List.getLast?] at he
  · rw [k] at he
    rw [List.range_succ, List.getLast?_concat] at he
    obtain rfl : m = e := by injection he
    rw [lastTestPerf_statesAfter save evals (m + 1) (Nat.succ_pos m)]
    simp

theorem train_returns_last_test_witness :
    (train false evals5 10).epochsRun.getLast? = some 4
    ∧ (train false evals5 10).lastTestPerf = some (evals5 4).test :=
  ⟨by decide, (train_returns_last_test false evals5 10).1 4 (by decide)⟩

/-- Claim C10: `best_epoch` starts at the sentinel `(-1, 10000, 0)`, and a dev
accuracy of 0 is never a strict improvement over it: when every epoch's dev
accuracy is 0, no checkpoint is saved, no predictions are generated, the
loop runs exactly epochs 0, 1, 2 (stopping since `2 - (-1) >= 3`), and the
final best record is still the sentinel. -/
theorem zero_acc_never_improves (save : Bool) (evals : ℕ → EpochEval) (epochs : ℕ)
    (hz : ∀ e, (evals e).dev.acc = 0) (he : 3 ≤ epochs) :
    initState.bestEpoch = (-1, 10000, 0)
    ∧ (train save evals epochs).savedEpochs = []
    ∧ (train save evals epochs).generatedEpochs = []
    ∧ (train save evals epochs).epochsRun = [0, 1, 2]
    ∧ (train save evals epochs).bestEpoch = (-1, 10000, 0) := by
  obtain ⟨n, rfl⟩ : ∃ n, epochs = n + 3 := ⟨epochs - 3, by omega⟩
  have h0 := hz 0
  have h1 := hz 1
  have h2 := hz 2
  have s0 : stepState save 0 (evals 0) initState
      = { bestEpoch := (-1, 10000, 0), savedEpochs := [], generatedEpochs := [],
          lastTestPerf := some (evals 0).test, epochsRun := [0] } := by
    simp [stepState, initState, h0]
  have s1 : stepState save 1 (evals 1)
      { bestEpoch := (-1, 10000, 0), savedEpochs := [], generatedEpochs := [],
        lastTestPerf := some (evals 0).test, epochsRun := [0] }
      = { bestEpoch := (-1, 10000, 0), savedEpochs := [], generatedEpochs := [],
          lastTestPerf := some (evals 1).test, epochsRun := [0, 1] } := by
    simp [stepState, h1]
  have s2 : stepState save 2 (evals 2)
      { bestEpoch := (-1, 10000, 0), savedEpochs := [], generatedEpochs := [],
        lastTestPerf := some (evals 1).test, epochsRun := [0, 1] }
      = { bestEpoch := (-1, 10000, 0), savedEpochs := [], generatedEpochs := [],
          lastTestPerf := some (evals 2).test, epochsRun := [0, 1, 2] } := by
    simp [stepState, h2]
  have key : train save evals (n + 3)
      = { bestEpoch := (-1, 10000, 0), savedEpochs := [], generatedEpochs := [],
          lastTestPerf := some (evals 2).test, epochsRun := [0, 1, 2] } := by
    show trainFrom save evals (n + 2 + 1) 0 initState = _
    rw [trainFrom]
    simp only [s0]
    rw [show (n + 2 : ℕ) = n + 1 + 1 from rfl, trainFrom]
    simp only [s1]
    rw [show (n + 1 : ℕ) = n + 0 + 1 from rfl, trainFrom]
    simp only [s2]
    rfl
  rw [key]
  exact ⟨rfl, rfl, rfl, rfl, rfl⟩

/-- All-zero dev accuracies, used to witness the sentinel behaviour. -/
def evalsZero : ℕ → EpochEval :=
  fun _ => { dev := { loss := 1, acc := 0 }, test := { loss := 1, acc := 0 } }

theorem zero_acc_never_improves_witness :
    initState.bestEpoch = (-1, 10000, 0)
    ∧ (train true evalsZero 10).savedEpochs = []
    ∧ (train true evalsZero 10).generatedEpochs = []
    ∧ (train true evalsZero 10).epochsRun = [0, 1, 2]
    ∧ (train true evalsZero 10).bestEpoch = (-1, 10000, 0) :=
  zero_acc_never_improves true evalsZero 10 (fun _ => rfl) (by decide)

/-- A persisted PredictionRecord: a mapping from example identifier to a
probability vector, as stored by `DirHelper.save_probs`. -/
abbrev PredMap := List (ℕ × List ℚ)

/-- The observable state of one run's prediction cache: the persisted
artifacts keyed by `(data_name, mode)`, whether `set_up_helpers` ran, and
how many inference passes (`_probs`) were executed. -/
structure CacheState where
  artifacts : List ((String × String) × PredMap)
  setUp     : Bool
  infers    : ℕ
deriving DecidableEq

/-- `DirHelper.probs_exists(data_name, mode)`. -/
def probs_exists (st : CacheState) (dn mode : String) : Bool :=
  (st.artifacts.lookup (dn, mode)).isSome

/-- `SystemLoader.load_probs`: on a cache miss run `set_up_helpers` and
`generate_probs` (one inference pass whose result `infer dn mode` is saved),
then load and return the persisted record. `infer` abstracts the
deterministic model inference over the requested split. -/
def loader_load_probs (infer : String → String → PredMap) (dn mode : String)
    (st : CacheState) : Option PredMap × CacheState :=
  let st1 :=
    if probs_exists st dn mode then st
    else { artifacts := ((dn, mode), infer dn mode) :: st.artifacts,
           setUp := true, infers := st.infers + 1 }
  (st1.artifacts.lookup (dn, mode), st1)

/-- Claim C4: calling `load_probs` twice for the same `(dataset, split)` with no
intervening deletion is idempotent: after the first call the artifact
exists, and the second call returns the identical record while leaving the
whole cache state untouched (no inference, no overwrite). -/
theorem load_probs_idempotent (infer : String → String → PredMap)
    (dn mode : String) (st : CacheState) :
    probs_exists (loader_load_probs infer dn mode st).2 dn mode = true
    ∧ (loader_load_probs infer dn mode
        (loader_load_probs infer dn mode st).2).1
      = (loader_load_probs infer dn mode st).1
    ∧ (loader_load_probs infer dn mode
        (loader_load_probs infer dn mode st).2).2
      = (loader_load_probs infer dn mode st).2 := by
  by_cases h : probs_exists st dn mode = true
  · refine ⟨?_, ?_, ?_⟩ <;> simp [loader_load_probs, h]
  · simp only [Bool.not_eq_true] at h
    have hx : probs_exists
        { artifacts := ((dn, mode), infer dn mode) :: st.artifacts,
          setUp := true, infers := st.infers + 1 } dn mode = true := by
      simp [probs_exists, List.lookup]
    refine ⟨?_, ?_, ?_⟩ <;>
      simp [loader_load_probs, h, hx]

/-- The squeezed per-example model output `y = output.y.squeeze(0)`: either
a 0-d tensor (bare scalar, empty shape) or a 1-d tensor (vector of raw
outputs). -/
inductive YOut where
  | scalar (x : ℚ)
  | vec (v : List ℚ)
deriving DecidableEq

/-- Softmax over the last dimension. The exponential map is abstracted as
the parameter `e`: the property under verification is which branch of
`_probs` applies it, not the numerics of `exp`. -/
def softmax (e : ℚ → ℚ) (v : List ℚ) : List ℚ :=
  v.map (fun x => e x / (v.map e).sum)

/-- The per-example branch of `SystemLoader._probs` / `Trainer._probs`:
`if y.shape and y.shape[-1] > 1: y = F.softmax(y, dim=-1)`. A bare scalar
has an empty, falsy shape; a vector of length `n` has shape `[n]`. -/
def probOf (e : ℚ → ℚ) : YOut → YOut
  | .scalar x => .scalar x
  | .vec v => if 1 < v.length then .vec (softmax e v) else .vec v

/-- The probability dictionary `_probs` builds over a split, with the raw
squeezed model output per example abstracted as input data. -/
def sysProbs (e : ℚ → ℚ) (data : List (ℕ × YOut)) : List (ℕ × YOut) :=
  data.map (fun p => (p.1, probOf e p.2))

/-- Claim C5: for every example of a prediction-generation pass, the stored value
is the softmax of the raw output vector when its last dimension has more
than one entry, and the raw output unchanged when it is a bare scalar or a
single-entry vector. -/
theorem probs_softmax_rule (e : ℚ → ℚ) (data : List (ℕ × YOut)) :
    (∀ id y, (id, y) ∈ data → (id, probOf e y) ∈ sysProbs e data)
    ∧ (∀ v, 1 < v.length → probOf e (.vec v) = .vec (softmax e v))
    ∧ (∀ x, probOf e (.scalar x) = .scalar x)
    ∧ (∀ a, probOf e (.vec [a]) = .vec [a]) := by
  refine ⟨?_, ?_, ?_, ?_⟩
  · intro id y h
    exact List.mem_map.2 ⟨(id, y), h, rfl⟩
  · intro v hv
    simp [probOf, hv]
  · intro x
    rfl
  · intro a
    rfl

theorem probs_softmax_rule_witness :
    ((0 : ℕ), probOf id (.vec [1, 2])) ∈ sysProbs id [(0, .vec [1, 2])]
    ∧ probOf id (.vec [1, 2]) = .vec (softmax id [1, 2])
    ∧ probOf id (.scalar 3) = .scalar 3
    ∧ probOf id (.vec [5]) = .vec [5] :=
  ⟨(probs_softmax_rule id [(0, .vec [1, 2])]).1 0 (.vec [1, 2]) (by simp),
   (probs_softmax_rule id [(0, .vec [1, 2])]).2.1 [1, 2] (by decide),
   (probs_softmax_rule id [(0, .vec [1, 2])]).2.2.1 3,
   (probs_softmax_rule id [(0, .vec [1, 2])]).2.2.2 5⟩

/-- Example identifiers of a prediction record (`probs.keys()`). -/
def keysOf (p : PredMap) : List ℕ := p.map Prod.fst

/-- Python dict-keys-view equality `i.keys() == conv_ids` (set semantics). -/
def keysBeq (a b : List ℕ) : Bool :=
  a.all (fun x => b.contains x) && b.all (fun x => a.contains x)

/-- Failures of `EnsembleLoader.load_probs`: `seed_probs[0]` on an empty
seed list raises IndexError, and the id-set assertion raises
AssertionError (the ConsistencyError of the design). -/
inductive EnsError where
  | indexError
  | consistencyError
deriving DecidableEq

/-- `np.mean(probs, axis=0)`: the elementwise mean of equally-shaped
vectors. -/
def npMean (vs : List (List ℚ)) : List ℚ :=
  match vs with
  | [] => []
  | v :: _ =>
    (List.range v.length).map
      (fun j => (vs.map (fun w => w.getD j 0)).sum / ((vs.length : ℕ) : ℚ))

/-- `EnsembleLoader.load_probs`, applied to the records the seed loaders
returned: take the first seed's ids, assert every seed has the same id set,
then average per id across seeds. -/
def ensemble_load_probs (seedProbs : List PredMap) : Except EnsError PredMap :=
  match seedProbs with
  | [] => .error .indexError
  | first :: rest =>
    if (first :: rest).all (fun p => keysBeq (keysOf p) (keysOf first)) then
      .ok ((keysOf first).map (fun k =>
        (k, npMean ((first :: rest).map (fun p => (p.lookup k).getD [])))))
    else .error .consistencyError

theorem keysBeq_iff (a b : List ℕ) :
    keysBeq a b = true ↔ ∀ x, x ∈ a ↔ x ∈ b := by
  simp only [keysBeq, Bool.and_eq_true, List.all_eq_true, List.elem_iff]
  constructor
  · rintro ⟨h1, h2⟩ x
    exact ⟨fun hx => h1 x hx, fun hx => h2 x hx⟩
  · intro h
    exact ⟨fun x hx => (h x).1 hx, fun x hx => (h x).2 hx⟩

theorem lookup_map_pair {β : Type} (l : List ℕ) (f : ℕ → β) (id : ℕ)
    (hid : id ∈ l) :
    (l.map (fun k => (k, f k))).lookup id = some (f id) := by
  induction l with
  | nil => cases hid
  | cons a t ih =>
    by_cases hia : id = a
    · subst hia
      simp [List.lookup]
    · rcases List.mem_cons.1 hid with rfl | h
      · exact absurd rfl hia
      · have hne : (id == a) = false := beq_eq_false_iff_ne.2 hia
        simp [List.lookup, hne, ih h]

/-- First seed of the spec's worked averaging example: `{7 ↦ [0.2, 0.8]}`. -/
def seedA : PredMap := [(7, [mkRat 1 5, mkRat 4 5])]

/-- Second seed of the spec's worked averaging example: `{7 ↦ [0.6, 0.4]}`. -/
def seedB : PredMap := [(7, [mkRat 3 5, mkRat 2 5])]

/-- Claim C6: when all seeds expose the same id set, the aggregated record maps
each id to the elementwise arithmetic mean of the seeds' probability
vectors for that id; for seeds `[0.2, 0.8]` and `[0.6, 0.4]` on id 7 the
aggregate is `[0.4, 0.6]`. -/
theorem ensemble_mean (first : PredMap) (rest : List PredMap) (id : ℕ) (d : ℕ)
    (hcons : ∀ p ∈ first :: rest, keysBeq (keysOf p) (keysOf first) = true)
    (hid : id ∈ keysOf first)
    (hd : ∀ p ∈ first :: rest, ∃ v, p.lookup id = some v ∧ v.length = d) :
    (∃ m v, ensemble_load_probs (first :: rest) = Except.ok m
      ∧ m.lookup id = some v
      ∧ v.length = d
      ∧ ∀ j, j < d → v.getD j 0
          = ((first :: rest).map (fun p => ((p.lookup id).getD []).getD j 0)).sum
            / (((rest.length + 1 : ℕ) : ℚ)))
    ∧ ensemble_load_probs [seedA, seedB]
        = Except.ok [(7, [mkRat 2 5, mkRat 3 5])] := by
  constructor
  · have hall : ((first :: rest).all
        (fun p => keysBeq (keysOf p) (keysOf first))) = true :=
      List.all_eq_true.2 hcons
    have hload : ensemble_load_probs (first :: rest)
        = Except.ok ((keysOf first).map (fun k =>
            (k, npMean ((first :: rest).map (fun p => (p.lookup k).getD []))))) := by
      simp [ensemble_load_probs, hall]
    obtain ⟨v0, hv0, hv0len⟩ := hd first (by simp)
    have hhead : (first.lookup id).getD [] = v0 := by rw [hv0]; rfl
    refine ⟨_, npMean ((first :: rest).map (fun p => (p.lookup id).getD [])),
      hload, lookup_map_pair _ _ id hid, ?_, ?_⟩
    · simp [npMean, hhead, hv0len]
    · intro j hj
      have hvs : ((first :: rest).map (fun p => (p.lookup id).getD []))
          = ((first.lookup id).getD []) :: rest.map (fun p => (p.lookup id).getD []) :=
        List.map_cons ..
      rw [hvs]
      simp only [npMean]
      rw [hhead, hv0len]
      rw [List.getD_eq_getElem?_getD, List.getElem?_map, List.getElem?_range hj]
      simp only [Option.map_some', Option.getD_some]
      rw [← hhead, ← hvs, List.map_map]
      congr 1
      simp
  · with_unfolding_all rfl

theorem ensemble_mean_witness :
    ∃ m v, ensemble_load_probs [seedA, seedB] = Except.ok m
      ∧ m.lookup 7 = some v
      ∧ v.length = 2
      ∧ ∀ j, j < 2 → v.getD j 0
          = (([seedA, seedB] : List PredMap).map
              (fun p => ((p.lookup 7).getD []).getD j 0)).sum
            / ((([seedB].length + 1 : ℕ)) : ℚ) :=
  (ensemble_mean seedA [seedB] 7 2
    (by decide) (by decide)
    (fun p hp => by
      rcases List.mem_cons.1 hp with rfl | hp2
      · exact ⟨[mkRat 1 5, mkRat 4 5], rfl, rfl⟩
      · rcases List.mem_cons.1 hp2 with rfl | hp3
        · exact ⟨[mkRat 3 5, mkRat 2 5], rfl, rfl⟩
        · cases hp3)).1

/-- Claim C7: the ensemble aggregation fails with the consistency error, yielding
no partial record, whenever two seeds expose different id sets; an averaged
record is only returned when every seed's id set is identical; in
particular seeds with ids `{1,2,3}` and `{1,2}` fail. -/
theorem ensemble_consistency (first : PredMap) (rest : List PredMap) :
    ((∃ p, p ∈ first :: rest ∧ ∃ q, q ∈ first :: rest
        ∧ ¬ (∀ x, x ∈ keysOf p ↔ x ∈ keysOf q)) →
      ensemble_load_probs (first :: rest) = Except.error EnsError.consistencyError)
    ∧ (∀ m, ensemble_load_probs (first :: rest) = Except.ok m →
        ∀ p, p ∈ first :: rest → ∀ q, q ∈ first :: rest →
          ∀ x, x ∈ keysOf p ↔ x ∈ keysOf q)
    ∧ ensemble_load_probs [[(1, [1]), (2, [1]), (3, [1])], [(1, [1]), (2, [1])]]
        = Except.error EnsError.consistencyError := by
  have hkey : ∀ (h : ((first :: rest).all
        (fun p => keysBeq (keysOf p) (keysOf first))) = true),
      ∀ p, p ∈ first :: rest → ∀ q, q ∈ first :: rest →
        ∀ x, x ∈ keysOf p ↔ x ∈ keysOf q := by
    intro h p hp q hq x
    have hall := List.all_eq_true.1 h
    have hpf := (keysBeq_iff _ _).1 (hall p hp) x
    have hqf := (keysBeq_iff _ _).1 (hall q hq) x
    exact hpf.trans hqf.symm
  refine ⟨?_, ?_, by rfl⟩
  · rintro ⟨p, hp, q, hq, hpq⟩
    by_cases h : ((first :: rest).all
        (fun p => keysBeq (keysOf p) (keysOf first))) = true
    · exact absurd (hkey h p hp q hq) hpq
    · simp only [Bool.not_eq_true] at h
      simp [ensemble_load_probs, h]
  · intro m hm
    by_cases h : ((first :: rest).all
        (fun p => keysBeq (keysOf p) (keysOf first))) = true
    · exact hkey h
    · simp only [Bool.not_eq_true] at h
      simp [ensemble_load_probs, h] at hm

theorem ensemble_consistency_witness :
    (∃ p, p ∈ [(1, [(1:ℚ)]), (2, [1]), (3, [1])] :: [[(1, [1]), (2, [1])]]
      ∧ ∃ q, q ∈ [(1, [(1:ℚ)]), (2, [1]), (3, [1])] :: [[(1, [1]), (2, [1])]]
      ∧ ¬ (∀ x, x ∈ keysOf p ↔ x ∈ keysOf q))
    ∧ ensemble_load_probs
        ([(1, [(1:ℚ)]), (2, [1]), (3, [1])] :: [[(1, [1]), (2, [1])]])
        = Except.error EnsError.consistencyError :=
  ⟨⟨[(1, [1]), (2, [1]), (3, [1])], by simp,
    [(1, [1]), (2, [1])], by simp,
    fun hall => by have h3 := hall 3; revert h3; decide⟩,
   (ensemble_consistency [(1, [1]), (2, [1]), (3, [1])] [[(1, [1]), (2, [1])]]).1
    ⟨[(1, [1]), (2, [1]), (3, [1])], by simp,
     [(1, [1]), (2, [1])], by simp,
     fun hall => by have h3 := hall 3; revert h3; decide⟩⟩

/-- Index of the first maximum of a vector, as `torch.argmax(·, dim=-1)`
computes per example. `argmaxAux xs i bi bv` scans `xs` starting at index
`i` with current best index `bi` and best value `bv`. -/
def argmaxAux : List ℚ → ℕ → ℕ → ℚ → ℕ
  | [], _, bi, _ => bi
  | x :: xs, i, bi, bv =>
    if bv < x then argmaxAux xs (i + 1) i x else argmaxAux xs (i + 1) bi bv

/-- Argmax over a (per-example) logit vector. -/
def argmax (v : List ℚ) : ℕ :=
  match v with
  | [] => 0
  | x :: xs => argmaxAux xs 1 0 x

/-- The hit count of `Trainer.model_output` (non-bias path):
`hits = argmax(output.y, dim=-1) == labels` followed by
`sum(hits[labels != -100])`. `logits` holds each position's logit vector,
`labels` the label tensor. -/
def hitsOf (logits : List (List ℚ)) (labels : List ℤ) : ℕ :=
  ((((logits.zip labels).map
      (fun p => ((argmax p.1 : ℤ) == p.2))).zip labels).filter
    (fun p => p.2 != -100)).countP (fun p => p.1 == true)

/-- The prediction count of `Trainer.model_output`:
`num_preds = sum(labels != -100)`. -/
def num_predsOf (labels : List ℤ) : ℕ :=
  (labels.map (fun lab => (lab != -100 : Bool))).count true

theorem num_preds_count (labels : List ℤ) :
    num_predsOf labels
      = (labels.filter (fun lab => decide (lab ≠ -100))).length := by
  induction labels with
  | nil => rfl
  | cons lab t ih =>
    simp only [num_predsOf, List.map_cons, List.count_cons,
      List.filter_cons] at ih ⊢
    by_cases h : lab = -100 <;> simp [h, ih]

/-- Claim C8: for every batch, the hit count equals the number of positions
whose label is not the sentinel `-100` and whose logits argmax equals the
label, and `num_preds` equals the number of positions whose label is not
`-100`. -/
theorem model_output_counts (logits : List (List ℚ)) (labels : List ℤ)
    (hlen : logits.length = labels.length) :
    hitsOf logits labels
      = ((logits.zip labels).filter
          (fun p => decide (p.2 ≠ -100) && decide ((argmax p.1 : ℤ) = p.2))).length
    ∧ num_predsOf labels
      = (labels.filter (fun lab => decide (lab ≠ -100))).length := by
  constructor
  · induction logits generalizing labels with
    | nil => simp [hitsOf]
    | cons l ls ih =>
      cases labels with
      | nil => simp [hitsOf]
      | cons lab t =>
        have hlen2 : ls.length = t.length := by simpa using hlen
        have tail := ih t hlen2
        simp only [hitsOf, List.zip_cons_cons, List.map_cons,
          List.filter_cons] at tail ⊢
        have tail2 : List.countP (fun p => (p.1 : Bool))
              (List.filter (fun p => p.2 != -100)
                ((List.map (fun p => ((argmax p.1 : ℤ) == p.2)) (ls.zip t)).zip t))
            = (List.filter
                (fun p => !decide (p.2 = -100) && decide ((argmax p.1 : ℤ) = p.2))
                (ls.zip t)).length := by
          simpa using tail
        by_cases h : lab = -100
        · simp [h, tail2]
        · by_cases hb : (argmax l : ℤ) = lab
          · simp [h, hb, tail2]
          · simp [h, hb, tail2]
  · exact num_preds_count labels

theorem model_output_counts_witness :
    ([[(1 : ℚ), 2], [3, 1], [0, 5]].length = ([1, -100, 0] : List ℤ).length)
    ∧ (hitsOf [[(1 : ℚ), 2], [3, 1], [0, 5]] [1, -100, 0]
        = ((([[(1 : ℚ), 2], [3, 1], [0, 5]].zip ([1, -100, 0] : List ℤ))).filter
            (fun p => decide (p.2 ≠ -100) && decide ((argmax p.1 : ℤ) = p.2))).length
      ∧ num_predsOf [1, -100, 0]
        = (([1, -100, 0] : List ℤ).filter (fun lab => decide (lab ≠ -100))).length) :=
  ⟨by decide, model_output_counts [[1, 2], [3, 1], [0, 5]] [1, -100, 0] (by decide)⟩

/-- A dataset example record `{id, text, label}` (only the fields
`load_labels` reads). -/
structure DataEx where
  label : ℤ
  text  : String
deriving DecidableEq

/-- The `(train, dev, test)` triple returned by `load_data(data_name)`. -/
structure DataSet where
  train : List DataEx
  dev   : List DataEx
  test  : List DataEx

/-- The tuple `load_data(data_name)` indexed by `split_index` values. -/
def load_data (d : DataSet) : List (List DataEx) := [d.train, d.dev, d.test]

/-- The dict `split_index = {'train': 0, 'dev': 1, 'test': 2}`; `none`
models a KeyError on any other key. -/
def split_index (s : String) : Option ℕ :=
  if s = "train" then some 0
  else if s = "dev" then some 1
  else if s = "test" then some 2
  else none

/-- Python exceptions surfaced by `SystemLoader.load_labels`. -/
inductive PyError where
  | keyError
deriving DecidableEq

/-- Python's `mode.split('_')` on the mode's character list. -/
def pySplit (cs : List Char) : List (List Char) :=
  match cs with
  | [] => [[]]
  | c :: rest =>
    if c = '_' then [] :: pySplit rest
    else
      match pySplit rest with
      | [] => [[c]]
      | w :: ws => (c :: w) :: ws

/-- The final loop of `load_labels`: densely re-enumerate the collected
examples from 0 and keep their labels. -/
def enumLabels (l : List DataEx) : List (ℕ × ℤ) :=
  l.enum.map (fun p => (p.1, p.2.label))

/-- `SystemLoader.load_labels(data_name, mode)`. The compound-mode branch
is translated exactly as written: each loop iteration evaluates
`load_data(data_name)[split_index[mode]]` with the UNSPLIT compound `mode`
string as the dict key (system_loader.py line 79). -/
def load_labels (d : DataSet) (mode : String) : Except PyError (List (ℕ × ℤ)) :=
  if ¬ (mode.toList.contains '_') then
    match split_index mode with
    | none => Except.error PyError.keyError
    | some i => Except.ok (enumLabels ((load_data d).getD i []))
  else
    ((pySplit mode.toList).foldlM (fun acc _split =>
        match split_index mode with
        | none => Except.error PyError.keyError
        | some i => Except.ok (acc ++ (load_data d).getD i [])) []).map enumLabels

/-- Claim C9 (against the code as written): for every dataset, requesting
the compound mode `dev_test` raises a KeyError — `split_index` is indexed
with the compound string inside the per-split loop — instead of returning
the densely re-indexed concatenation of the dev and test splits that the
claim describes; the single-split modes do return the dense enumeration. -/
theorem load_labels_compound_mode_fails (d : DataSet) :
    load_labels d "dev_test" = Except.error PyError.keyError
    ∧ load_labels d "dev" = Except.ok (enumLabels d.dev)
    ∧ load_labels d "test" = Except.ok (enumLabels d.test) :=
  ⟨rfl, rfl, rfl⟩

end NlpResidue
